import Mathlib

/-!
Shallow embedding of `anyrl/algos/dqn.py` (class `DQN`): the discounted
multi-step return, the batch-to-feed-dict encoding, the weighted loss
reduction, the target-network parameter copy, and the `train` loop as a
state machine over an explicit input script emitting an event trace.

Observations, rewards and parameters are modelled as rationals; the
observation vectorizer and the per-sample transition loss are external
collaborators and appear as function parameters.
-/

namespace DQN

/-- One environment transition, as stored in the replay buffer
(`anyrl.rollouts.ReplayBuffer` transition dicts). `new_obs = none`
models Python `None` (terminal). -/
structure Transition where
  obs : ℚ
  actions : List ℤ
  rewards : List ℚ
  new_obs : Option ℚ
  is_last : Bool
  episode_id : Nat
  episode_step : Nat
  total_reward : ℚ
  weight : ℚ
  deriving DecidableEq, Repr

instance : Inhabited Transition :=
  ⟨{ obs := 0, actions := [], rewards := [], new_obs := none, is_last := false,
     episode_id := 0, episode_step := 0, total_reward := 0, weight := 1 }⟩

/-- Models `DQN._discounted_rewards`: `res = 0; for i, rew in enumerate(rews):
res += rew * discount ** i`. -/
def discounted_rewards (discount : ℚ) (rews : List ℚ) : ℚ :=
  (rews.enum.foldl (fun res p => res + p.2 * discount ^ p.1) 0)

/-- The batch encoding produced by `DQN.feed_dict`: one aligned list per
placeholder. -/
structure FeedDict where
  obses : List ℚ
  actions : List ℤ
  rews : List ℚ
  terminals : List Bool
  discounts : List ℚ
  weights : List ℚ
  new_obses : List ℚ
  deriving DecidableEq, Repr

/-- Models `DQN.feed_dict`. `vect` stands for `obs_vect.to_vecs` applied to each
observation; `discount` is `self.discount`. The `new_obses` entry mirrors
the loop substituting `trans['obs']` when `trans['new_obs'] is None`. -/
def feed_dict (discount : ℚ) (vect : ℚ → ℚ) (transitions : List Transition) : FeedDict :=
  { obses := transitions.map (fun t => vect t.obs)
    actions := transitions.map (fun t => t.actions.headI)
    rews := transitions.map (fun t => discounted_rewards discount t.rewards)
    terminals := transitions.map (fun t => t.new_obs.isNone)
    discounts := transitions.map (fun t => discount ^ t.rewards.length)
    weights := transitions.map (fun t => t.weight)
    new_obses := transitions.map (fun t => vect (t.new_obs.getD t.obs)) }

/-- Models `self.losses = self.weights_ph * losses` (elementwise product of the
weight placeholder with the per-sample transition losses). -/
def weighted_losses (weights raw_losses : List ℚ) : List ℚ :=
  List.zipWith (· * ·) weights raw_losses

/-- Models `self.loss = tf.reduce_mean(self.losses)`. -/
def scalar_loss (weights raw_losses : List ℚ) : ℚ :=
  (weighted_losses weights raw_losses).sum / (weighted_losses weights raw_losses).length

/-- Models `self.update_target`: `for dst, src in zip(target_net.variables,
online_net.variables): assigns.append(tf.assign(dst, src))`. Positions
covered by the zip take the online value; any trailing target positions
are untouched. -/
def update_target (target online : List ℚ) : List ℚ :=
  (List.zipWith (fun _dst src => src) target online) ++ target.drop online.length


/-- The keyword arguments of `DQN.train` that steer the loop. `timeout`
is wall-clock seconds (`Option` models the `None` default), likewise
`save_interval` and `restore_path`. -/
structure Config where
  num_steps : Nat
  train_interval : Nat
  target_interval : Nat
  batch_size : Nat
  min_buffer_size : Nat
  timeout : Option ℚ
  save_interval : Option Nat
  restore_path : Option String
  num_envs : Nat
  deriving DecidableEq, Repr

/-- Observable actions of `DQN.train`, in program order. Session-level
side effects (running `update_target`, restoring a snapshot, inserting
into the replay buffer, the sample/optimize/update_weights triple of a
gradient step, the episode callback, `saver.save`) are recorded as
events. -/
inductive Event where
  | initial_sync : Event
  | restore : String → Event
  | insert : Event
  | train_fire : Nat → Event
  | target_sync : Nat → Event
  | episode_end : Nat → ℚ → Event
  | save : String → Nat → Event
  | timeout_return : Event
  deriving DecidableEq, Repr

/-- Mutable loop state of `DQN.train`: step and episode counters, the
two cadence thresholds, the per-environment reward list, and the number
of `add_sample` calls made so far. -/
structure LoopState where
  steps_taken : Nat
  num_episodes : Nat
  next_target_update : Nat
  next_train_step : Nat
  env_rewards : List ℚ
  inserted : Nat
  deriving DecidableEq, Repr

/-- The constant `osp.join('.', 'checkpoints_rainbow/model')`. -/
def checkdir : String := "./checkpoints_rainbow/model"

/-- Python truthiness test `if save_interval and num_episodes % save_interval == 0`. -/
def saveCond : Option Nat → Nat → Bool
  | none, _ => false
  | some k, n => !(k == 0) && (n % k == 0)

/-- Python list assignment `l[i] = v` for a nonnegative index: in bounds
it updates, out of bounds it raises `IndexError` (modelled as `none`). -/
def listSet? (l : List ℚ) (i : Nat) (v : ℚ) : Option (List ℚ) :=
  if i < l.length then some (l.set i v) else none

/-- The body of `for trans in transitions` in `DQN.train` (lines
166-193): episode bookkeeping and optional save, replay insertion and
counter bumps, the train-step check, the target-sync check. `bufSize n`
models `replay_buffer.size` after `n` calls to `add_sample`. -/
def processTransition (cfg : Config) (bufSize : Nat → Nat) (s : LoopState)
    (t : Transition) : Except String (LoopState × List Event) :=
  match
    (if t.is_last then
      match listSet? s.env_rewards t.episode_id t.total_reward with
      | none => Except.error "IndexError: list assignment index out of range"
      | some er =>
        Except.ok ({ s with env_rewards := er, num_episodes := s.num_episodes + 1 },
          [Event.episode_end t.episode_id t.total_reward] ++
            (if saveCond cfg.save_interval s.num_episodes then
              [Event.save checkdir s.num_episodes]
            else []))
    else Except.ok (s, ([] : List Event))) with
  | Except.error e => Except.error e
  | Except.ok (s1, evs1) =>
    let s2 : LoopState :=
      { s1 with inserted := s1.inserted + 1, steps_taken := s1.steps_taken + 1 }
    let evs2 := evs1 ++ [Event.insert]
    let r3 : LoopState × List Event :=
      if cfg.min_buffer_size ≤ bufSize s2.inserted ∧ s2.next_train_step ≤ s2.steps_taken then
        ({ s2 with next_train_step := s2.steps_taken + cfg.train_interval },
         evs2 ++ [Event.train_fire s2.steps_taken])
      else (s2, evs2)
    if r3.1.next_target_update ≤ r3.1.steps_taken then
      Except.ok ({ r3.1 with next_target_update := r3.1.steps_taken + cfg.target_interval },
        r3.2 ++ [Event.target_sync r3.1.steps_taken])
    else Except.ok r3

/-- Processes one `player.play()` batch of transitions in order. -/
def processTransitions (cfg : Config) (bufSize : Nat → Nat) :
    LoopState → List Transition → Except String (LoopState × List Event)
  | s, [] => Except.ok (s, [])
  | s, t :: ts =>
    match processTransition cfg bufSize s t with
    | Except.error e => Except.error e
    | Except.ok (s1, evs1) =>
      match processTransitions cfg bufSize s1 ts with
      | Except.error e => Except.error e
      | Except.ok (s2, evs2) => Except.ok (s2, evs1 ++ evs2)

/-- Models `time.time() - start_time > timeout` when a timeout is configured. -/
def timeoutExceeded : Option ℚ → ℚ → ℚ → Bool
  | none, _, _ => false
  | some tmo, start, now => decide (now - start > tmo)

/-- The `while steps_taken < num_steps` loop. Each script entry supplies
one outer iteration's wall-clock reading and the transitions returned by
`player.play()`; an exhausted script ends the observable trace. -/
def trainLoop (cfg : Config) (bufSize : Nat → Nat) (start : ℚ) :
    List (ℚ × List Transition) → LoopState → Except String (List Event)
  | [], _ => Except.ok []
  | (now, txs) :: rest, s =>
    if ¬ s.steps_taken < cfg.num_steps then Except.ok []
    else if timeoutExceeded cfg.timeout start now then Except.ok [Event.timeout_return]
    else
      match processTransitions cfg bufSize s txs with
      | Except.error e => Except.error e
      | Except.ok (s1, evs1) =>
        match trainLoop cfg bufSize start rest s1 with
        | Except.error e => Except.error e
        | Except.ok evs2 => Except.ok (evs1 ++ evs2)

/-- Loop-state initialisation in `DQN.train` (lines 138-158). -/
def initState (cfg : Config) : LoopState :=
  { steps_taken := 0, num_episodes := 0, next_target_update := cfg.target_interval,
    next_train_step := cfg.train_interval, env_rewards := List.replicate cfg.num_envs 0,
    inserted := 0 }

/-- Pre-loop actions of `DQN.train`: `sess.run(self.update_target)`
(line 137) and then, when `restore_path` is given, the snapshot restore
(lines 151-154). -/
def initEvents (cfg : Config) : List Event :=
  [Event.initial_sync] ++
    (match cfg.restore_path with
     | some p => [Event.restore p]
     | none => [])

/-- Models `DQN.train` as a trace generator. -/
def train (cfg : Config) (bufSize : Nat → Nat) (start : ℚ)
    (script : List (ℚ × List Transition)) : Except String (List Event) :=
  match trainLoop cfg bufSize start script (initState cfg) with
  | Except.error e => Except.error e
  | Except.ok evs => Except.ok (initEvents cfg ++ evs)

/-- The step counters at which gradient steps fired, in order. -/
def trainFireSteps (tr : List Event) : List Nat :=
  tr.filterMap (fun e => match e with | Event.train_fire k => some k | _ => none)

/-- Whether `pat` occurs at the start of `s`. -/
def isPrefixChars : List Char → List Char → Bool
  | [], _ => true
  | _ :: _, [] => false
  | a :: as, b :: bs => a == b && isPrefixChars as bs

/-- Whether `pat` occurs contiguously anywhere in `s`: the Python
substring test `pat in s`. -/
def containsSub (pat : List Char) : List Char → Bool
  | [] => pat.isEmpty
  | c :: rest => isPrefixChars pat (c :: rest) || containsSub pat rest

/-- The `tf.train.Saver` variable list: `[v for v in all_variables if
"ScheduleCounter" not in v.name]` (line 147). -/
def saver_var_list (all_variables : List String) : List String :=
  all_variables.filter (fun v => !(containsSub "ScheduleCounter".toList v.toList))

/-- Events that run `update_target` in the session. -/
def isSyncEvent : Event → Bool
  | Event.initial_sync => true
  | Event.target_sync _ => true
  | _ => false

/-- The snapshot-restore event. -/
def isRestoreEvent : Event → Bool
  | Event.restore _ => true
  | _ => false

/-- Some target synchronization occurs strictly after a restore in the
trace. -/
def syncAfterRestore (tr : List Event) : Prop :=
  ∃ i j, i < j ∧ j < tr.length ∧ isRestoreEvent (tr.getD i Event.insert) = true
    ∧ isSyncEvent (tr.getD j Event.insert) = true

/-- A synthetic one-step non-terminal transition (reward 1). -/
def stepTransition : Transition :=
  { obs := 0, actions := [0], rewards := [1], new_obs := some 0, is_last := false,
    episode_id := 0, episode_step := 0, total_reward := 0, weight := 1 }

/-- A synthetic episode-ending transition. -/
def lastTransition : Transition :=
  { obs := 0, actions := [0], rewards := [1], new_obs := none, is_last := true,
    episode_id := 0, episode_step := 0, total_reward := 3, weight := 1 }

/-- The synthetic-stepper scenario of the spec: one transition per
`play()` call, `train_interval = 4`, buffer-fill precondition already
satisfied (`min_buffer_size = 0`). -/
def cadenceConfig : Config :=
  { num_steps := 13, train_interval := 4, target_interval := 8192, batch_size := 32,
    min_buffer_size := 0, timeout := none, save_interval := none, restore_path := none,
    num_envs := 1 }

/-- The event trace of the synthetic-stepper scenario. -/
def cadenceTrace : List Event :=
  (train cadenceConfig (fun n => n) 0
    (List.replicate 13 ((0 : ℚ), [stepTransition]))).toOption.getD []

/-- A run that restores from a snapshot and takes no steps. -/
def restoreConfig : Config :=
  { num_steps := 0, train_interval := 1, target_interval := 8192, batch_size := 32,
    min_buffer_size := 20000, timeout := none, save_interval := none,
    restore_path := some "ckpt", num_envs := 1 }

/-- A run configured with `timeout = 0` and nonzero `num_steps`. -/
def timeoutConfig : Config :=
  { num_steps := 5, train_interval := 1, target_interval := 8192, batch_size := 32,
    min_buffer_size := 0, timeout := some 0, save_interval := none, restore_path := none,
    num_envs := 1 }

section Lemmas

theorem discounted_rewards_foldl_shift (discount : ℚ) (rews : List ℚ) (n : Nat) (a : ℚ) :
    (rews.enumFrom n).foldl (fun res p => res + p.2 * discount ^ p.1) a
      = a + ∑ i ∈ Finset.range rews.length, rews.getD i 0 * discount ^ (n + i) := by
  induction rews generalizing n a with
  | nil => simp
  | cons r rest ih =>
      simp only [List.enumFrom, List.foldl, List.length_cons]
      rw [ih, Finset.sum_range_succ']
      simp only [List.getD_cons_succ, List.getD_cons_zero]
      have he : ∀ i ∈ Finset.range rest.length,
          rest.getD i 0 * discount ^ (n + 1 + i) = rest.getD i 0 * discount ^ (n + (i + 1)) := by
        intro i _
        have hn : n + 1 + i = n + (i + 1) := by omega
        rw [hn]
      rw [Finset.sum_congr rfl he]
      ring

theorem discounted_rewards_eq_sum (discount : ℚ) (rews : List ℚ) :
    discounted_rewards discount rews
      = ∑ i ∈ Finset.range rews.length, rews.getD i 0 * discount ^ i := by
  have h := discounted_rewards_foldl_shift discount rews 0 0
  simpa [discounted_rewards, List.enum] using h

theorem getD_map_of_lt {α : Type} {β : Type} (f : α → β) (l : List α) (i : Nat)
    (d : α) (b : β) (h : i < l.length) : (l.map f).getD i b = f (l.getD i d) := by
  induction l generalizing i with
  | nil => simp at h
  | cons x xs ih =>
      cases i with
      | zero => simp
      | succ n =>
          simp only [List.map_cons, List.getD_cons_succ]
          exact ih n (by simpa using h)

end Lemmas

/-- C1: `_discounted_rewards` on a reward sequence `[r0,...,r_{k-1}]`
with discount factor `γ` returns `Σ_i r_i · γ^i`; for `γ = 0` it
returns `r0`, and on a length-1 sequence it returns `r0` regardless of
`γ`. (Purity holds by construction: it is modelled as a Lean
function.) -/
theorem discounted_rewards_correct (γ : ℚ) (rews : List ℚ) :
    discounted_rewards γ rews = ∑ i ∈ Finset.range rews.length, rews.getD i 0 * γ ^ i
    ∧ (∀ r rest, discounted_rewards 0 (r :: rest) = r)
    ∧ (∀ r, discounted_rewards γ [r] = r) := by
  refine ⟨discounted_rewards_eq_sum γ rews, ?_, ?_⟩
  · intro r rest
    rw [discounted_rewards_eq_sum, List.length_cons, Finset.sum_range_succ']
    simp [pow_succ]
  · intro r
    rw [discounted_rewards_eq_sum]
    simp

/-- C3: `feed_dict` encodes for each transition a per-sample discount
of `γ ^ len(rewards)`; a one-step transition (reward sequence of length
1) gets exactly `γ^1 = γ`. -/
theorem feed_dict_discounts_correct (γ : ℚ) (vect : ℚ → ℚ) (ts : List Transition)
    (i : Nat) (h : i < ts.length) :
    (feed_dict γ vect ts).discounts.getD i 0 = γ ^ (ts.getD i default).rewards.length
    ∧ ((ts.getD i default).rewards.length = 1 →
        (feed_dict γ vect ts).discounts.getD i 0 = γ) := by
  have h1 : (feed_dict γ vect ts).discounts.getD i 0
      = γ ^ (ts.getD i default).rewards.length := by
    rw [show (feed_dict γ vect ts).discounts
        = ts.map (fun t => γ ^ t.rewards.length) from rfl]
    exact getD_map_of_lt (fun t => γ ^ t.rewards.length) ts i default 0 h
  exact ⟨h1, fun hk => by rw [h1, hk, pow_one]⟩

/-- Witness for C3 at a concrete one-step batch. -/
theorem feed_dict_discounts_correct_witness :
    0 < [stepTransition].length
    ∧ ((feed_dict (1/2) id [stepTransition]).discounts.getD 0 0
          = (1/2 : ℚ) ^ ([stepTransition].getD 0 default).rewards.length
        ∧ (([stepTransition].getD 0 default).rewards.length = 1 →
            (feed_dict (1/2) id [stepTransition]).discounts.getD 0 0 = 1/2)) :=
  ⟨by decide, feed_dict_discounts_correct (1/2) id [stepTransition] 0 (by decide)⟩

/-- C4: `feed_dict` sets the terminal flag exactly when the transition
has no `new_obs`, and for such a terminal transition the encoded
next-observation is the vectorized form of the transition's own `obs`
(identical to its entry in the encoded current observations). -/
theorem feed_dict_terminals_correct (γ : ℚ) (vect : ℚ → ℚ) (ts : List Transition)
    (i : Nat) (h : i < ts.length) :
    ((feed_dict γ vect ts).terminals.getD i false = true
      ↔ (ts.getD i default).new_obs = none)
    ∧ ((ts.getD i default).new_obs = none →
        (feed_dict γ vect ts).new_obses.getD i 0 = vect (ts.getD i default).obs
        ∧ (feed_dict γ vect ts).new_obses.getD i 0
            = (feed_dict γ vect ts).obses.getD i 0) := by
  have ht : (feed_dict γ vect ts).terminals.getD i false
      = (ts.getD i default).new_obs.isNone := by
    rw [show (feed_dict γ vect ts).terminals = ts.map (fun t => t.new_obs.isNone) from rfl]
    exact getD_map_of_lt (fun t => t.new_obs.isNone) ts i default false h
  have hn : (feed_dict γ vect ts).new_obses.getD i 0
      = vect ((ts.getD i default).new_obs.getD (ts.getD i default).obs) := by
    rw [show (feed_dict γ vect ts).new_obses
        = ts.map (fun t => vect (t.new_obs.getD t.obs)) from rfl]
    exact getD_map_of_lt (fun t => vect (t.new_obs.getD t.obs)) ts i default 0 h
  have ho : (feed_dict γ vect ts).obses.getD i 0 = vect (ts.getD i default).obs := by
    rw [show (feed_dict γ vect ts).obses = ts.map (fun t => vect t.obs) from rfl]
    exact getD_map_of_lt (fun t => vect t.obs) ts i default 0 h
  constructor
  · rw [ht]
    exact Option.isNone_iff_eq_none
  · intro hnone
    have hv : (feed_dict γ vect ts).new_obses.getD i 0 = vect (ts.getD i default).obs := by
      rw [hn, hnone]
      simp
    exact ⟨hv, by rw [hv, ho]⟩

/-- Witness for C4 at a concrete terminal transition. -/
theorem feed_dict_terminals_correct_witness :
    0 < [lastTransition].length
    ∧ (((feed_dict (1/2) id [lastTransition]).terminals.getD 0 false = true
          ↔ ([lastTransition].getD 0 default).new_obs = none)
        ∧ (([lastTransition].getD 0 default).new_obs = none →
            (feed_dict (1/2) id [lastTransition]).new_obses.getD 0 0
                = id ([lastTransition].getD 0 default).obs
            ∧ (feed_dict (1/2) id [lastTransition]).new_obses.getD 0 0
                = (feed_dict (1/2) id [lastTransition]).obses.getD 0 0)) :=
  ⟨by decide, feed_dict_terminals_correct (1/2) id [lastTransition] 0 (by decide)⟩

theorem zipWith_snd_eq (a b : List ℚ) (h : a.length = b.length) :
    List.zipWith (fun _dst src => src) a b = b := by
  induction a generalizing b with
  | nil =>
      cases b with
      | nil => rfl
      | cons y ys => simp at h
  | cons x xs ih =>
      cases b with
      | nil => simp at h
      | cons y ys =>
          simp only [List.zipWith]
          rw [ih ys (by simpa using h)]

/-- C5: running the `update_target` op overwrites every target
parameter with its positionally paired online parameter (a hard copy),
and running it twice in a row gives the same result as running it
once. -/
theorem update_target_correct (target online : List ℚ)
    (h : target.length = online.length) :
    update_target target online = online
    ∧ (∀ i, i < online.length →
        (update_target target online).getD i 0 = online.getD i 0)
    ∧ update_target (update_target target online) online = update_target target online := by
  have h1 : update_target target online = online := by
    unfold update_target
    rw [zipWith_snd_eq target online h, ← h, List.drop_length, List.append_nil]
  refine ⟨h1, fun i _ => by rw [h1], ?_⟩
  rw [h1]
  unfold update_target
  rw [zipWith_snd_eq online online rfl, List.drop_length, List.append_nil]

/-- Witness for C5 at concrete parameter lists. -/
theorem update_target_correct_witness :
    ([5, 7] : List ℚ).length = ([1, 2] : List ℚ).length
    ∧ (update_target [5, 7] [1, 2] = [1, 2]
        ∧ (∀ i, i < ([1, 2] : List ℚ).length →
            (update_target [5, 7] [1, 2]).getD i 0 = ([1, 2] : List ℚ).getD i 0)
        ∧ update_target (update_target [5, 7] [1, 2]) [1, 2]
            = update_target [5, 7] [1, 2]) :=
  ⟨by decide, update_target_correct [5, 7] [1, 2] (by decide)⟩

theorem zipWith_mul_sum (a b : List ℚ) (h : a.length = b.length) :
    (List.zipWith (· * ·) a b).sum
      = ∑ i ∈ Finset.range a.length, a.getD i 0 * b.getD i 0 := by
  induction a generalizing b with
  | nil => simp
  | cons x xs ih =>
      cases b with
      | nil => simp at h
      | cons y ys =>
          simp only [List.zipWith, List.sum_cons, List.length_cons]
          rw [Finset.sum_range_succ']
          simp only [List.getD_cons_succ, List.getD_cons_zero]
          rw [ih ys (by simpa using h)]
          ring

/-- C6: the scalar loss minimized by the optimizer is the mean over the
batch of (per-sample weight × per-sample loss), the weights being taken
verbatim from each transition's `weight` field through `feed_dict`. -/
theorem scalar_loss_correct (γ : ℚ) (vect : ℚ → ℚ) (ts : List Transition)
    (raw_losses : List ℚ) (h : raw_losses.length = ts.length) :
    scalar_loss (feed_dict γ vect ts).weights raw_losses
      = (∑ i ∈ Finset.range ts.length,
          (ts.getD i default).weight * raw_losses.getD i 0) / ts.length := by
  have hw : (feed_dict γ vect ts).weights = ts.map (fun t => t.weight) := rfl
  have hlw : (feed_dict γ vect ts).weights.length = ts.length := by
    rw [hw, List.length_map]
  have hsum : (List.zipWith (· * ·) (feed_dict γ vect ts).weights raw_losses).sum
      = ∑ i ∈ Finset.range ts.length,
          (ts.getD i default).weight * raw_losses.getD i 0 := by
    rw [zipWith_mul_sum _ _ (by rw [hlw, h]), hlw]
    apply Finset.sum_congr rfl
    intro i hi
    rw [hw, getD_map_of_lt (fun t => t.weight) ts i default 0 (Finset.mem_range.mp hi)]
  have hlen : (List.zipWith (· * ·) (feed_dict γ vect ts).weights raw_losses).length
      = ts.length := by
    rw [List.length_zipWith, hlw, h, min_self]
  unfold scalar_loss weighted_losses
  rw [hsum, hlen]

/-- Witness for C6 at a concrete two-transition batch. -/
theorem scalar_loss_correct_witness :
    ([4, 6] : List ℚ).length = [stepTransition, lastTransition].length
    ∧ scalar_loss (feed_dict (1/2) id [stepTransition, lastTransition]).weights [4, 6]
        = (∑ i ∈ Finset.range [stepTransition, lastTransition].length,
            ([stepTransition, lastTransition].getD i default).weight
              * ([4, 6] : List ℚ).getD i 0) / [stepTransition, lastTransition].length :=
  ⟨by decide, scalar_loss_correct (1/2) id [stepTransition, lastTransition] [4, 6] (by decide)⟩

/-- C2: in the loop body a gradient step fires exactly when the buffer
has reached `min_buffer_size` and `steps_taken` (after the increment)
has reached `next_train_step`; on firing, `next_train_step` becomes
`steps_taken + train_interval`, otherwise it is unchanged and no
gradient step occurs. In the synthetic scenario (one transition per
call, `train_interval = 4`, buffer precondition satisfied) training
fires exactly at steps 4, 8, 12 and never at 5, 6, or 7. -/
theorem train_cadence_correct (cfg : Config) (bufSize : Nat → Nat) (s : LoopState)
    (t : Transition) (h : t.is_last = false) :
    (∃ s2 evs, processTransition cfg bufSize s t = Except.ok (s2, evs)
      ∧ ((∃ k, Event.train_fire k ∈ evs) ↔
          cfg.min_buffer_size ≤ bufSize (s.inserted + 1)
            ∧ s.next_train_step ≤ s.steps_taken + 1)
      ∧ (cfg.min_buffer_size ≤ bufSize (s.inserted + 1)
            ∧ s.next_train_step ≤ s.steps_taken + 1 →
          Event.train_fire (s.steps_taken + 1) ∈ evs
            ∧ s2.next_train_step = s.steps_taken + 1 + cfg.train_interval)
      ∧ (¬ (cfg.min_buffer_size ≤ bufSize (s.inserted + 1)
            ∧ s.next_train_step ≤ s.steps_taken + 1) →
          s2.next_train_step = s.next_train_step ∧ ∀ k, Event.train_fire k ∉ evs))
    ∧ trainFireSteps cadenceTrace = [4, 8, 12]
    ∧ Event.train_fire 5 ∉ cadenceTrace
    ∧ Event.train_fire 6 ∉ cadenceTrace
    ∧ Event.train_fire 7 ∉ cadenceTrace := by
  refine ⟨?_, by decide, by decide, by decide, by decide⟩
  by_cases hc : cfg.min_buffer_size ≤ bufSize (s.inserted + 1)
      ∧ s.next_train_step ≤ s.steps_taken + 1
  · by_cases hu : s.next_target_update ≤ s.steps_taken + 1
    · refine ⟨⟨s.steps_taken + 1, s.num_episodes, s.steps_taken + 1 + cfg.target_interval,
          s.steps_taken + 1 + cfg.train_interval, s.env_rewards, s.inserted + 1⟩,
        [Event.insert, Event.train_fire (s.steps_taken + 1),
          Event.target_sync (s.steps_taken + 1)],
        by simp [processTransition, h, hc, hu], ?_, ?_, ?_⟩
      · exact iff_of_true ⟨s.steps_taken + 1, by simp⟩ hc
      · intro _
        exact ⟨by simp, rfl⟩
      · intro hn
        exact absurd hc hn
    · refine ⟨⟨s.steps_taken + 1, s.num_episodes, s.next_target_update,
          s.steps_taken + 1 + cfg.train_interval, s.env_rewards, s.inserted + 1⟩,
        [Event.insert, Event.train_fire (s.steps_taken + 1)],
        by simp [processTransition, h, hc, hu], ?_, ?_, ?_⟩
      · exact iff_of_true ⟨s.steps_taken + 1, by simp⟩ hc
      · intro _
        exact ⟨by simp, rfl⟩
      · intro hn
        exact absurd hc hn
  · by_cases hu : s.next_target_update ≤ s.steps_taken + 1
    · refine ⟨⟨s.steps_taken + 1, s.num_episodes, s.steps_taken + 1 + cfg.target_interval,
          s.next_train_step, s.env_rewards, s.inserted + 1⟩,
        [Event.insert, Event.target_sync (s.steps_taken + 1)],
        by simp [processTransition, h, hc, hu], ?_, ?_, ?_⟩
      · exact iff_of_false (by simp) hc
      · intro hcc
        exact absurd hcc hc
      · intro _
        exact ⟨rfl, by simp⟩
    · refine ⟨⟨s.steps_taken + 1, s.num_episodes, s.next_target_update,
          s.next_train_step, s.env_rewards, s.inserted + 1⟩,
        [Event.insert],
        by simp [processTransition, h, hc, hu], ?_, ?_, ?_⟩
      · exact iff_of_false (by simp) hc
      · intro hcc
        exact absurd hcc hc
      · intro _
        exact ⟨rfl, by simp⟩

/-- Witness for C2 at the synthetic scenario's configuration and
initial state. -/
theorem train_cadence_correct_witness :
    stepTransition.is_last = false
    ∧ ((∃ s2 evs,
        processTransition cadenceConfig (fun n => n) (initState cadenceConfig) stepTransition
            = Except.ok (s2, evs)
          ∧ ((∃ k, Event.train_fire k ∈ evs) ↔
              cadenceConfig.min_buffer_size ≤ (fun n => n) ((initState cadenceConfig).inserted + 1)
                ∧ (initState cadenceConfig).next_train_step
                    ≤ (initState cadenceConfig).steps_taken + 1)
          ∧ (cadenceConfig.min_buffer_size ≤ (fun n => n) ((initState cadenceConfig).inserted + 1)
                ∧ (initState cadenceConfig).next_train_step
                    ≤ (initState cadenceConfig).steps_taken + 1 →
              Event.train_fire ((initState cadenceConfig).steps_taken + 1) ∈ evs
                ∧ s2.next_train_step
                    = (initState cadenceConfig).steps_taken + 1 + cadenceConfig.train_interval)
          ∧ (¬ (cadenceConfig.min_buffer_size
                  ≤ (fun n => n) ((initState cadenceConfig).inserted + 1)
                ∧ (initState cadenceConfig).next_train_step
                    ≤ (initState cadenceConfig).steps_taken + 1) →
              s2.next_train_step = (initState cadenceConfig).next_train_step
                ∧ ∀ k, Event.train_fire k ∉ evs))
      ∧ trainFireSteps cadenceTrace = [4, 8, 12]
      ∧ Event.train_fire 5 ∉ cadenceTrace
      ∧ Event.train_fire 6 ∉ cadenceTrace
      ∧ Event.train_fire 7 ∉ cadenceTrace) :=
  ⟨rfl, train_cadence_correct cadenceConfig (fun n => n) (initState cadenceConfig)
    stepTransition rfl⟩

/-- C7 counterexample: in a run with a restore path, the trace starts
with the unconditional target sync and only then the restore, and no
synchronization at all executes after the restore — the snapshot is
loaded after the first (pre-loop) target synchronization, not before
it. -/
theorem restore_after_sync_counterexample :
    train restoreConfig (fun n => n) 0 []
        = Except.ok [Event.initial_sync, Event.restore "ckpt"]
    ∧ isSyncEvent ([Event.initial_sync, Event.restore "ckpt"].getD 0 Event.insert) = true
    ∧ isRestoreEvent ([Event.initial_sync, Event.restore "ckpt"].getD 1 Event.insert) = true
    ∧ ¬ syncAfterRestore [Event.initial_sync, Event.restore "ckpt"] := by
  refine ⟨rfl, by decide, by decide, ?_⟩
  rintro ⟨i, j, hij, hj, _hres, hsync⟩
  have hj2 : j < 2 := by simpa using hj
  rcases j with _ | j
  · omega
  · rcases j with _ | j
    · exact absurd hsync (by decide)
    · omega

/-- C7 (amended): when a restore path is supplied, the unconditional
pre-loop target synchronization runs first and the snapshot restore
second — the trace of every successful run opens with the sync event
followed by the restore event, so the restored online and target
estimators are in sync after session start only insofar as the snapshot
itself restores both parameter sets, not because a sync executes after
the restore. -/
theorem sync_before_restore (cfg : Config) (p : String) (bufSize : Nat → Nat)
    (start : ℚ) (script : List (ℚ × List Transition)) (evs : List Event)
    (hp : cfg.restore_path = some p)
    (h : train cfg bufSize start script = Except.ok evs) :
    evs.take 2 = [Event.initial_sync, Event.restore p]
    ∧ isSyncEvent (evs.getD 0 Event.insert) = true
    ∧ isRestoreEvent (evs.getD 1 Event.insert) = true := by
  unfold train at h
  cases he : trainLoop cfg bufSize start script (initState cfg) with
  | error e =>
      rw [he] at h
      exact absurd h (by simp)
  | ok evs2 =>
      rw [he] at h
      have hev : initEvents cfg ++ evs2 = evs := by
        simpa using h
      rw [← hev]
      simp [initEvents, hp, isSyncEvent, isRestoreEvent]

/-- Witness for the amended C7 at a concrete restoring run. -/
theorem sync_before_restore_witness :
    restoreConfig.restore_path = some "ckpt"
    ∧ train restoreConfig (fun n => n) 0 []
        = Except.ok [Event.initial_sync, Event.restore "ckpt"]
    ∧ ([Event.initial_sync, Event.restore "ckpt"].take 2
          = [Event.initial_sync, Event.restore "ckpt"]
        ∧ isSyncEvent ([Event.initial_sync, Event.restore "ckpt"].getD 0 Event.insert) = true
        ∧ isRestoreEvent ([Event.initial_sync, Event.restore "ckpt"].getD 1 Event.insert)
            = true) :=
  ⟨rfl, rfl, sync_before_restore restoreConfig "ckpt" (fun n => n) 0 []
    [Event.initial_sync, Event.restore "ckpt"] rfl rfl⟩

/-- C8: with `timeout = 0`, nonzero `num_steps` and any positive
elapsed wall-clock time, the loop returns normally (`Except.ok`) at the
first outer-iteration timeout check, before pulling or processing any
transition: the trace holds no replay insertion, no gradient step and
no checkpoint save. -/
theorem timeout_returns_immediately (cfg : Config) (bufSize : Nat → Nat)
    (start now : ℚ) (txs : List Transition) (rest : List (ℚ × List Transition))
    (ht : cfg.timeout = some 0) (hn : 0 < cfg.num_steps) (hnow : start < now) :
    train cfg bufSize start ((now, txs) :: rest)
        = Except.ok (initEvents cfg ++ [Event.timeout_return])
    ∧ Event.insert ∉ initEvents cfg ++ [Event.timeout_return]
    ∧ (∀ k, Event.train_fire k ∉ initEvents cfg ++ [Event.timeout_return])
    ∧ (∀ p tag, Event.save p tag ∉ initEvents cfg ++ [Event.timeout_return]) := by
  have h2 : timeoutExceeded cfg.timeout start now = true := by
    rw [ht]
    unfold timeoutExceeded
    exact decide_eq_true (by linarith)
  have hloop : trainLoop cfg bufSize start ((now, txs) :: rest) (initState cfg)
      = Except.ok [Event.timeout_return] := by
    unfold trainLoop
    have h1 : ¬ ¬ (initState cfg).steps_taken < cfg.num_steps := by
      simp [initState, hn]
    rw [if_neg h1, if_pos h2]
  refine ⟨?_, ?_, ?_, ?_⟩
  · unfold train
    rw [hloop]
  · cases hr : cfg.restore_path with
    | none => simp [initEvents, hr]
    | some p => simp [initEvents, hr]
  · intro k
    cases hr : cfg.restore_path with
    | none => simp [initEvents, hr]
    | some p => simp [initEvents, hr]
  · intro p tag
    cases hr : cfg.restore_path with
    | none => simp [initEvents, hr]
    | some q => simp [initEvents, hr]

/-- Witness for C8 at a concrete zero-timeout run. -/
theorem timeout_returns_immediately_witness :
    timeoutConfig.timeout = some 0 ∧ 0 < timeoutConfig.num_steps ∧ (0 : ℚ) < 1
    ∧ (train timeoutConfig (fun n => n) 0 ((1, [stepTransition]) :: [])
          = Except.ok (initEvents timeoutConfig ++ [Event.timeout_return])
        ∧ Event.insert ∉ initEvents timeoutConfig ++ [Event.timeout_return]
        ∧ (∀ k, Event.train_fire k ∉ initEvents timeoutConfig ++ [Event.timeout_return])
        ∧ (∀ p tag, Event.save p tag ∉ initEvents timeoutConfig ++ [Event.timeout_return])) :=
  ⟨rfl, by decide, by norm_num,
    timeout_returns_immediately timeoutConfig (fun n => n) 0 1 [stepTransition] []
      rfl (by decide) (by norm_num)⟩

theorem processTransition_is_last_spec (cfg : Config) (bufSize : Nat → Nat)
    (s : LoopState) (t : Transition) (hl : t.is_last = true)
    (hid : t.episode_id < s.env_rewards.length) :
    ∃ s2 evs, processTransition cfg bufSize s t = Except.ok (s2, evs)
      ∧ s2.num_episodes = s.num_episodes + 1
      ∧ s2.env_rewards = s.env_rewards.set t.episode_id t.total_reward
      ∧ (saveCond cfg.save_interval s.num_episodes = true →
          Event.save checkdir s.num_episodes ∈ evs)
      ∧ (∀ p tag, Event.save p tag ∈ evs → p = checkdir ∧ tag = s.num_episodes
          ∧ saveCond cfg.save_interval s.num_episodes = true) := by
  by_cases hsv : saveCond cfg.save_interval s.num_episodes = true
  · by_cases hc : cfg.min_buffer_size ≤ bufSize (s.inserted + 1)
        ∧ s.next_train_step ≤ s.steps_taken + 1
    · by_cases hu : s.next_target_update ≤ s.steps_taken + 1
      · refine ⟨⟨s.steps_taken + 1, s.num_episodes + 1, s.steps_taken + 1 + cfg.target_interval,
            s.steps_taken + 1 + cfg.train_interval,
            s.env_rewards.set t.episode_id t.total_reward, s.inserted + 1⟩,
          [Event.episode_end t.episode_id t.total_reward,
            Event.save checkdir s.num_episodes,
            Event.insert,
            Event.train_fire (s.steps_taken + 1),
            Event.target_sync (s.steps_taken + 1)],
          by simp [processTransition, hl, listSet?, hid, hsv, hc, hu], rfl, rfl, ?_, ?_⟩
        · intro _
          simp
        · intro p tag hm
          simp at hm
          exact ⟨hm.1, hm.2, hsv⟩
      · refine ⟨⟨s.steps_taken + 1, s.num_episodes + 1, s.next_target_update,
            s.steps_taken + 1 + cfg.train_interval,
            s.env_rewards.set t.episode_id t.total_reward, s.inserted + 1⟩,
          [Event.episode_end t.episode_id t.total_reward,
            Event.save checkdir s.num_episodes,
            Event.insert,
            Event.train_fire (s.steps_taken + 1)],
          by simp [processTransition, hl, listSet?, hid, hsv, hc, hu], rfl, rfl, ?_, ?_⟩
        · intro _
          simp
        · intro p tag hm
          simp at hm
          exact ⟨hm.1, hm.2, hsv⟩
    · by_cases hu : s.next_target_update ≤ s.steps_taken + 1
      · refine ⟨⟨s.steps_taken + 1, s.num_episodes + 1, s.steps_taken + 1 + cfg.target_interval,
            s.next_train_step,
            s.env_rewards.set t.episode_id t.total_reward, s.inserted + 1⟩,
          [Event.episode_end t.episode_id t.total_reward,
            Event.save checkdir s.num_episodes,
            Event.insert,
            Event.target_sync (s.steps_taken + 1)],
          by simp [processTransition, hl, listSet?, hid, hsv, hc, hu], rfl, rfl, ?_, ?_⟩
        · intro _
          simp
        · intro p tag hm
          simp at hm
          exact ⟨hm.1, hm.2, hsv⟩
      · refine ⟨⟨s.steps_taken + 1, s.num_episodes + 1, s.next_target_update,
            s.next_train_step,
            s.env_rewards.set t.episode_id t.total_reward, s.inserted + 1⟩,
          [Event.episode_end t.episode_id t.total_reward,
            Event.save checkdir s.num_episodes,
            Event.insert],
          by simp [processTransition, hl, listSet?, hid, hsv, hc, hu], rfl, rfl, ?_, ?_⟩
        · intro _
          simp
        · intro p tag hm
          simp at hm
          exact ⟨hm.1, hm.2, hsv⟩
  · by_cases hc : cfg.min_buffer_size ≤ bufSize (s.inserted + 1)
        ∧ s.next_train_step ≤ s.steps_taken + 1
    · by_cases hu : s.next_target_update ≤ s.steps_taken + 1
      · refine ⟨⟨s.steps_taken + 1, s.num_episodes + 1, s.steps_taken + 1 + cfg.target_interval,
            s.steps_taken + 1 + cfg.train_interval,
            s.env_rewards.set t.episode_id t.total_reward, s.inserted + 1⟩,
          [Event.episode_end t.episode_id t.total_reward,
            Event.insert,
            Event.train_fire (s.steps_taken + 1),
            Event.target_sync (s.steps_taken + 1)],
          by simp [processTransition, hl, listSet?, hid, hsv, hc, hu], rfl, rfl, ?_, ?_⟩
        · intro hh
          exact absurd hh hsv
        · intro p tag hm
          simp at hm
      · refine ⟨⟨s.steps_taken + 1, s.num_episodes + 1, s.next_target_update,
            s.steps_taken + 1 + cfg.train_interval,
            s.env_rewards.set t.episode_id t.total_reward, s.inserted + 1⟩,
          [Event.episode_end t.episode_id t.total_reward,
            Event.insert,
            Event.train_fire (s.steps_taken + 1)],
          by simp [processTransition, hl, listSet?, hid, hsv, hc, hu], rfl, rfl, ?_, ?_⟩
        · intro hh
          exact absurd hh hsv
        · intro p tag hm
          simp at hm
    · by_cases hu : s.next_target_update ≤ s.steps_taken + 1
      · refine ⟨⟨s.steps_taken + 1, s.num_episodes + 1, s.steps_taken + 1 + cfg.target_interval,
            s.next_train_step,
            s.env_rewards.set t.episode_id t.total_reward, s.inserted + 1⟩,
          [Event.episode_end t.episode_id t.total_reward,
            Event.insert,
            Event.target_sync (s.steps_taken + 1)],
          by simp [processTransition, hl, listSet?, hid, hsv, hc, hu], rfl, rfl, ?_, ?_⟩
        · intro hh
          exact absurd hh hsv
        · intro p tag hm
          simp at hm
      · refine ⟨⟨s.steps_taken + 1, s.num_episodes + 1, s.next_target_update,
            s.next_train_step,
            s.env_rewards.set t.episode_id t.total_reward, s.inserted + 1⟩,
          [Event.episode_end t.episode_id t.total_reward,
            Event.insert],
          by simp [processTransition, hl, listSet?, hid, hsv, hc, hu], rfl, rfl, ?_, ?_⟩
        · intro hh
          exact absurd hh hsv
        · intro p tag hm
          simp at hm
theorem saveCond_iff (si : Option Nat) (n : Nat) :
    saveCond si n = true ↔ ∃ k, si = some k ∧ k ≠ 0 ∧ n % k = 0 := by
  cases si with
  | none => simp [saveCond]
  | some k => simp [saveCond]

/-- C9 (amended): checkpoint saves exclude transient schedule counters
by the `"ScheduleCounter"` name-substring convention; the destination is
the fixed (not configurable) relative path `./checkpoints_rainbow/model`
under the fixed `checkpoints_rainbow` subdirectory; each snapshot is
tagged with the current episode count; and at an episode boundary a
snapshot is written exactly when `save_interval` is configured (non-None
and nonzero) and `num_episodes mod save_interval == 0`, the tag being
the episode count before it is incremented. -/
theorem checkpoint_correct (cfg : Config) (bufSize : Nat → Nat) (s : LoopState)
    (t : Transition) (vars : List String)
    (hl : t.is_last = true) (hid : t.episode_id < s.env_rewards.length) :
    (∀ v, v ∈ saver_var_list vars ↔
        v ∈ vars ∧ containsSub "ScheduleCounter".toList v.toList = false)
    ∧ checkdir = "./checkpoints_rainbow/model"
    ∧ (∃ s2 evs, processTransition cfg bufSize s t = Except.ok (s2, evs)
        ∧ ((Event.save checkdir s.num_episodes ∈ evs) ↔
            ∃ k, cfg.save_interval = some k ∧ k ≠ 0 ∧ s.num_episodes % k = 0)
        ∧ (∀ p tag, Event.save p tag ∈ evs → p = checkdir ∧ tag = s.num_episodes)
        ∧ s2.num_episodes = s.num_episodes + 1) := by
  refine ⟨?_, rfl, ?_⟩
  · intro v
    simp [saver_var_list, List.mem_filter]
  · obtain ⟨s2, evs, hpt, hne, _her, hforward, hback⟩ :=
      processTransition_is_last_spec cfg bufSize s t hl hid
    refine ⟨s2, evs, hpt, ?_, ?_, hne⟩
    · constructor
      · intro hm
        exact (saveCond_iff _ _).mp (hback checkdir s.num_episodes hm).2.2
      · intro hk
        exact hforward ((saveCond_iff _ _).mpr hk)
    · intro p tag hm
      exact ⟨(hback p tag hm).1, (hback p tag hm).2.1⟩

/-- Witness for the amended C9 at a concrete episode boundary with
`save_interval = 1`. -/
theorem checkpoint_correct_witness :
    lastTransition.is_last = true
    ∧ lastTransition.episode_id < (initState cadenceConfig).env_rewards.length
    ∧ ((∀ v, v ∈ saver_var_list ["net/w1", "net/ScheduleCounter_1"] ↔
          v ∈ ["net/w1", "net/ScheduleCounter_1"]
            ∧ containsSub "ScheduleCounter".toList v.toList = false)
        ∧ checkdir = "./checkpoints_rainbow/model"
        ∧ (∃ s2 evs,
            processTransition { cadenceConfig with save_interval := some 1 } (fun n => n)
                (initState cadenceConfig) lastTransition = Except.ok (s2, evs)
              ∧ ((Event.save checkdir (initState cadenceConfig).num_episodes ∈ evs) ↔
                  ∃ k, ({ cadenceConfig with save_interval := some 1 } : Config).save_interval
                        = some k
                    ∧ k ≠ 0 ∧ (initState cadenceConfig).num_episodes % k = 0)
              ∧ (∀ p tag, Event.save p tag ∈ evs →
                  p = checkdir ∧ tag = (initState cadenceConfig).num_episodes)
              ∧ s2.num_episodes = (initState cadenceConfig).num_episodes + 1)) :=
  ⟨rfl, by decide,
    checkpoint_correct { cadenceConfig with save_interval := some 1 } (fun n => n)
      (initState cadenceConfig) lastTransition ["net/w1", "net/ScheduleCounter_1"]
      rfl (by decide)⟩

theorem processTransition_save_path (cfg : Config) (bufSize : Nat → Nat)
    (s : LoopState) (t : Transition) (s2 : LoopState) (evs : List Event)
    (h : processTransition cfg bufSize s t = Except.ok (s2, evs)) :
    ∀ p tag, Event.save p tag ∈ evs → p = checkdir := by
  intro p tag hm
  by_cases hl : t.is_last = true
  · by_cases hid : t.episode_id < s.env_rewards.length
    · obtain ⟨s2', evs', hpt, _h1, _h2, _h3, hback⟩ :=
        processTransition_is_last_spec cfg bufSize s t hl hid
      rw [hpt] at h
      have hev : evs' = evs := by simpa using (And.right (by simpa using h))
      exact (hback p tag (hev ▸ hm)).1
    · have hnone : listSet? s.env_rewards t.episode_id t.total_reward = none := by
        simp [listSet?, hid]
      simp [processTransition, hl, hnone] at h
  · have hl' : t.is_last = false := by simpa using hl
    by_cases hc : cfg.min_buffer_size ≤ bufSize (s.inserted + 1)
        ∧ s.next_train_step ≤ s.steps_taken + 1
    · by_cases hu : s.next_target_update ≤ s.steps_taken + 1
      · simp [processTransition, hl', hc, hu] at h
        rcases h with ⟨_h1, h2⟩
        subst h2
        simp at hm
      · simp [processTransition, hl', hc, hu] at h
        rcases h with ⟨_h1, h2⟩
        subst h2
        simp at hm
    · by_cases hu : s.next_target_update ≤ s.steps_taken + 1
      · simp [processTransition, hl', hc, hu] at h
        rcases h with ⟨_h1, h2⟩
        subst h2
        simp at hm
      · simp [processTransition, hl', hc, hu] at h
        rcases h with ⟨_h1, h2⟩
        subst h2
        simp at hm

theorem processTransitions_save_path (cfg : Config) (bufSize : Nat → Nat) :
    ∀ (ts : List Transition) (s s2 : LoopState) (evs : List Event),
      processTransitions cfg bufSize s ts = Except.ok (s2, evs) →
      ∀ p tag, Event.save p tag ∈ evs → p = checkdir := by
  intro ts
  induction ts with
  | nil =>
      intro s s2 evs h p tag hm
      have hred : processTransitions cfg bufSize s [] = Except.ok (s, []) := rfl
      rw [hred] at h
      injection h with hpair
      injection hpair with _hs hev
      subst hev
      simp at hm
  | cons t rest ih =>
      intro s s2 evs h p tag hm
      have hred : processTransitions cfg bufSize s (t :: rest)
          = match processTransition cfg bufSize s t with
            | Except.error e => Except.error e
            | Except.ok (s1, evs1) =>
              match processTransitions cfg bufSize s1 rest with
              | Except.error e => Except.error e
              | Except.ok (s2, evs2) => Except.ok (s2, evs1 ++ evs2) := rfl
      rw [hred] at h
      cases hpt : processTransition cfg bufSize s t with
      | error e =>
          rw [hpt] at h
          simp at h
      | ok r =>
          obtain ⟨s1, evs1⟩ := r
          rw [hpt] at h
          dsimp only at h
          cases hrest : processTransitions cfg bufSize s1 rest with
          | error e =>
              rw [hrest] at h
              simp at h
          | ok r2 =>
              obtain ⟨s3, evs2⟩ := r2
              rw [hrest] at h
              dsimp only at h
              injection h with hpair
              injection hpair with _hs hev
              subst hev
              rcases List.mem_append.mp hm with hm1 | hm2
              · exact processTransition_save_path cfg bufSize s t s1 evs1 hpt p tag hm1
              · exact ih s1 s3 evs2 hrest p tag hm2

theorem trainLoop_save_path (cfg : Config) (bufSize : Nat → Nat) (start : ℚ) :
    ∀ (script : List (ℚ × List Transition)) (s : LoopState) (evs : List Event),
      trainLoop cfg bufSize start script s = Except.ok evs →
      ∀ p tag, Event.save p tag ∈ evs → p = checkdir := by
  intro script
  induction script with
  | nil =>
      intro s evs h p tag hm
      have hred : trainLoop cfg bufSize start [] s = Except.ok [] := rfl
      rw [hred] at h
      injection h with hev
      subst hev
      simp at hm
  | cons entry rest ih =>
      obtain ⟨now, txs⟩ := entry
      intro s evs h p tag hm
      have hred : trainLoop cfg bufSize start ((now, txs) :: rest) s
          = if ¬ s.steps_taken < cfg.num_steps then Except.ok []
            else if timeoutExceeded cfg.timeout start now then
              Except.ok [Event.timeout_return]
            else
              match processTransitions cfg bufSize s txs with
              | Except.error e => Except.error e
              | Except.ok (s1, evs1) =>
                match trainLoop cfg bufSize start rest s1 with
                | Except.error e => Except.error e
                | Except.ok evs2 => Except.ok (evs1 ++ evs2) := rfl
      rw [hred] at h
      by_cases h1 : ¬ s.steps_taken < cfg.num_steps
      · rw [if_pos h1] at h
        injection h with hev
        subst hev
        simp at hm
      · rw [if_neg h1] at h
        by_cases h2 : timeoutExceeded cfg.timeout start now = true
        · rw [if_pos h2] at h
          injection h with hev
          subst hev
          simp at hm
        · rw [if_neg h2] at h
          cases hpt : processTransitions cfg bufSize s txs with
          | error e =>
              rw [hpt] at h
              simp at h
          | ok r =>
              obtain ⟨s1, evs1⟩ := r
              rw [hpt] at h
              dsimp only at h
              cases hrec : trainLoop cfg bufSize start rest s1 with
              | error e =>
                  rw [hrec] at h
                  simp at h
              | ok evs2 =>
                  rw [hrec] at h
                  dsimp only at h
                  injection h with hev
                  subst hev
                  rcases List.mem_append.mp hm with hm1 | hm2
                  · exact processTransitions_save_path cfg bufSize txs s s1 evs1 hpt p tag hm1
                  · exact ih s1 evs2 hrec p tag hm2

theorem train_save_path (cfg : Config) (bufSize : Nat → Nat) (start : ℚ)
    (script : List (ℚ × List Transition)) (evs : List Event)
    (h : train cfg bufSize start script = Except.ok evs) :
    ∀ p tag, Event.save p tag ∈ evs → p = checkdir := by
  intro p tag hm
  unfold train at h
  cases he : trainLoop cfg bufSize start script (initState cfg) with
  | error e =>
      rw [he] at h
      exact absurd h (by simp)
  | ok evs2 =>
      rw [he] at h
      have hev : initEvents cfg ++ evs2 = evs := by simpa using h
      rw [← hev] at hm
      rcases List.mem_append.mp hm with hm1 | hm2
      · cases hr : cfg.restore_path with
        | none => simp [initEvents, hr] at hm1
        | some q => simp [initEvents, hr] at hm1
      · exact trainLoop_save_path cfg bufSize start script (initState cfg) evs2 he p tag hm2

/-- C9 counterexample: the checkpoint path is not configurable — no
choice of configuration, replay-buffer model, clock or input script
makes a successful run write a snapshot anywhere other than the fixed
`./checkpoints_rainbow/model`: the source hardcodes
`osp.join('.', 'checkpoints_rainbow/model')`. -/
theorem checkpoint_path_not_configurable :
    ¬ ∃ (cfg : Config) (bufSize : Nat → Nat) (start : ℚ)
        (script : List (ℚ × List Transition)) (evs : List Event) (p : String) (tag : Nat),
      train cfg bufSize start script = Except.ok evs
        ∧ Event.save p tag ∈ evs ∧ p ≠ checkdir := by
  rintro ⟨cfg, bufSize, start, script, evs, p, tag, h, hm, hne⟩
  exact hne (train_save_path cfg bufSize start script evs h p tag hm)

/-- C10: on an episode-ending transition the loop writes `total_reward`
into the per-environment reward list at index `episode_id`; the
bookkeeping succeeds exactly when `episode_id` is within the list (whose
length starts as `num_envs`), and for `episode_id` out of range the loop
fails with an out-of-range index error. -/
theorem env_rewards_bounds (cfg : Config) (bufSize : Nat → Nat) (s : LoopState)
    (t : Transition) (hl : t.is_last = true) :
    ((∃ r, processTransition cfg bufSize s t = Except.ok r)
        ↔ t.episode_id < s.env_rewards.length)
    ∧ (t.episode_id < s.env_rewards.length →
        ∃ s2 evs, processTransition cfg bufSize s t = Except.ok (s2, evs)
          ∧ s2.env_rewards = s.env_rewards.set t.episode_id t.total_reward)
    ∧ (s.env_rewards.length ≤ t.episode_id →
        processTransition cfg bufSize s t
          = Except.error "IndexError: list assignment index out of range")
    ∧ (initState cfg).env_rewards.length = cfg.num_envs := by
  have herr : s.env_rewards.length ≤ t.episode_id →
      processTransition cfg bufSize s t
        = Except.error "IndexError: list assignment index out of range" := by
    intro hge
    have hnlt : ¬ t.episode_id < s.env_rewards.length := not_lt.mpr hge
    have hnone : listSet? s.env_rewards t.episode_id t.total_reward = none := by
      simp [listSet?, hnlt]
    simp [processTransition, hl, hnone]
  refine ⟨?_, ?_, herr, by simp [initState]⟩
  · constructor
    · rintro ⟨r, hr⟩
      by_contra hnb
      rw [herr (not_lt.mp hnb)] at hr
      exact absurd hr (by simp)
    · intro hid
      obtain ⟨s2, evs, hpt, _⟩ := processTransition_is_last_spec cfg bufSize s t hl hid
      exact ⟨(s2, evs), hpt⟩
  · intro hid
    obtain ⟨s2, evs, hpt, _hne, her, _⟩ := processTransition_is_last_spec cfg bufSize s t hl hid
    exact ⟨s2, evs, hpt, her⟩

/-- Witness for C10: in bounds at `episode_id = 0` with one environment
slot, and out of range at `episode_id = 5`. -/
theorem env_rewards_bounds_witness :
    lastTransition.is_last = true
    ∧ (((∃ r, processTransition cadenceConfig (fun n => n) (initState cadenceConfig)
            lastTransition = Except.ok r)
          ↔ lastTransition.episode_id < (initState cadenceConfig).env_rewards.length)
        ∧ (lastTransition.episode_id < (initState cadenceConfig).env_rewards.length →
            ∃ s2 evs, processTransition cadenceConfig (fun n => n) (initState cadenceConfig)
                lastTransition = Except.ok (s2, evs)
              ∧ s2.env_rewards = (initState cadenceConfig).env_rewards.set
                  lastTransition.episode_id lastTransition.total_reward)
        ∧ ((initState cadenceConfig).env_rewards.length ≤ lastTransition.episode_id →
            processTransition cadenceConfig (fun n => n) (initState cadenceConfig)
                lastTransition
              = Except.error "IndexError: list assignment index out of range")
        ∧ (initState cadenceConfig).env_rewards.length = cadenceConfig.num_envs) :=
  ⟨rfl, env_rewards_bounds cadenceConfig (fun n => n) (initState cadenceConfig)
    lastTransition rfl⟩

end DQN

